import Mathlib

/-!
Shallow embedding of the `orderbook` repository's matching engine core:
`src/bank/currency.rs`, `src/bank/account.rs`, `src/book/order.rs`,
`src/book/tick.rs`, `src/book/orderbook.rs`.

Modelling conventions:
* `u64` values are modelled as `Nat`.  The one arithmetic operation in the
  traced code that actually underflows (`tick.total_orders -= filled_quantity`
  in the sweep loops, where `total_orders` is never incremented on insertion)
  is modelled with explicit two's-complement wrapping modulo `2 ^ 64`
  (`subWrap`), matching release-mode semantics; the underflow itself is
  recorded by a dedicated theorem.  All other arithmetic in the code stays in
  range on the executions the claims describe and is modelled directly on `Nat`.
* `Rc<RefCell<Account>>` (shared mutable account handles) is modelled as an
  account id into an explicit account store `AccountStore := Nat → Account`;
  every operation that mutates an account threads the store.
* `BTreeMap<u64, Tick>` is modelled as an association list sorted by strictly
  ascending key (`TickMap`); `range_mut(lo..)` / `range_mut(..=hi)` become
  `dropWhile` / `takeWhile` on the sorted list.
* Fallible Rust functions returning `Result` become `Except String`; because
  `&mut self` mutations performed before an early `return Err(..)` persist in
  Rust, the embedded operations always return the (possibly partially mutated)
  state alongside the `Except` value.
-/

/-- `Currency` from `src/bank/currency.rs`. -/
inductive Currency where
  | USD
  | OSMO
deriving DecidableEq, Repr

/-- `AccountType` from `src/bank/account.rs`. -/
inductive AccountType where
  | Individual
  | Orderbook
deriving DecidableEq, Repr

/-- `Account` from `src/bank/account.rs`; the `HashMap<Currency, u64>` of
balances (absent key = 0) is modelled as a total function. -/
structure Account where
  account_id : Nat
  balances : Currency → Nat
  account_type : AccountType

/-- `Account::new`. -/
def Account.new (acc_id : Nat) (acc_type : AccountType) : Account :=
  { account_id := acc_id, balances := fun _ => 0, account_type := acc_type }

/-- `Account::deposit`: `*balance += amount`. -/
def Account.deposit (a : Account) (currency : Currency) (amount : Nat) : Account :=
  { a with balances := fun c => if c = currency then a.balances currency + amount else a.balances c }

/-- `Account::withdraw`: errors with "Insufficient funds" when the balance is
too small, otherwise subtracts. -/
def Account.withdraw (a : Account) (currency : Currency) (amount : Nat) :
    Except String Account :=
  if a.balances currency < amount then .error "Insufficient funds"
  else .ok { a with balances := fun c => if c = currency then a.balances currency - amount else a.balances c }

/-- `Account::balance`. -/
def Account.balance (a : Account) (currency : Currency) : Nat :=
  a.balances currency

/-- The heap of accounts, indexed by account id; models the
`Rc<RefCell<Account>>` handles shared between orders. -/
abbrev AccountStore := Nat → Account

/-- Deposit into the account stored at id `owner`. -/
def storeDeposit (s : AccountStore) (owner : Nat) (currency : Currency) (amount : Nat) :
    AccountStore :=
  fun i => if i = owner then (s owner).deposit currency amount else s i

/-- Withdraw from the account stored at id `owner`; on error the store is
unchanged (the caller keeps `s`). -/
def storeWithdraw (s : AccountStore) (owner : Nat) (currency : Currency) (amount : Nat) :
    Except String AccountStore :=
  match (s owner).withdraw currency amount with
  | .error e => .error e
  | .ok a => .ok (fun i => if i = owner then a else s i)

/-- `OrderType` from `src/book/order.rs`. -/
inductive OrderType where
  | Market
  | Limit
deriving DecidableEq, Repr

/-- `OrderDirection` from `src/book/order.rs`. -/
inductive OrderDirection where
  | Bid
  | Ask
deriving DecidableEq, Repr

/-- `Order` from `src/book/order.rs`; the `owner: Rc<RefCell<Account>>` field
is the id of the owner's account in the `AccountStore`. -/
structure Order where
  order_id : Nat
  tick_id : Nat
  book_id : Nat
  owner : Nat
  order_type : OrderType
  order_direction : OrderDirection
  quantity : Nat
deriving DecidableEq, Repr

/-- `Order::set_quantity`. -/
def Order.set_quantity (o : Order) (quantity : Nat) : Order :=
  { o with quantity := quantity }

/-- `Order::distribute_filled_assets`: credit the owner with what the order
bought (Bid: `amount_filled` OSMO; Ask: `amount_filled * price` USD). -/
def Order.distribute_filled_assets (o : Order) (amount_filled price_per_filled_unit : Nat)
    (s : AccountStore) : AccountStore :=
  match o.order_direction with
  | .Bid => storeDeposit s o.owner .OSMO amount_filled
  | .Ask => storeDeposit s o.owner .USD (amount_filled * price_per_filled_unit)

/-- `Order::withdraw_deposited_assets`: debit the owner the backing resources
(Bid: `amount_filled * price` USD; Ask: `amount_filled` OSMO). -/
def Order.withdraw_deposited_assets (o : Order) (amount_filled price_per_filled_unit : Nat)
    (s : AccountStore) : Except String AccountStore :=
  match o.order_direction with
  | .Bid => storeWithdraw s o.owner .USD (amount_filled * price_per_filled_unit)
  | .Ask => storeWithdraw s o.owner .OSMO amount_filled

/-- Result of `Order::fill_order`: the leftover of the input quantity, the
updated order, and the updated account store. -/
structure FillOrderOut where
  remaining : Nat
  order : Order
  store : AccountStore

/-- `Order::fill_order`: consume up to `fill_quantity` from the order's
remaining quantity, then settle the consumed amount at the order's own
`tick_id` price via `distribute_filled_assets`. -/
def Order.fill_order (o : Order) (fill_quantity : Nat) (s : AccountStore) : FillOrderOut :=
  let step : Nat × Order :=
    if fill_quantity < o.quantity then
      (0, { o with quantity := o.quantity - fill_quantity })
    else
      (fill_quantity - o.quantity, { o with quantity := 0 })
  let remaining_quantity := step.1
  let o1 := step.2
  let amount_filled := fill_quantity - remaining_quantity
  let s1 := o1.distribute_filled_assets amount_filled o1.tick_id s
  { remaining := remaining_quantity, order := o1, store := s1 }

/-- `Tick` from `src/book/tick.rs`; the `VecDeque<Order>` is a list with head
at the front. -/
structure Tick where
  tick_id : Nat
  next_order : Nat
  orders : List Order
  total_orders : Nat
deriving DecidableEq, Repr

/-- `Tick::new`: note `total_orders` starts at 0. -/
def Tick.new (tick_id : Nat) : Tick :=
  { tick_id := tick_id, next_order := 0, orders := [], total_orders := 0 }

/-- Result of `Tick::fill_tick`. -/
structure FillTickOut where
  remaining : Nat
  tick : Tick
  store : AccountStore

/-- The `while remaining_quantity > 0 && self.orders.len() > 0` loop of
`Tick::fill_tick`.  After `fill_order`, either the head order's quantity is 0
(it is popped and the loop continues) or the leftover quantity is 0 (the loop
condition fails on the next check), so returning in the second branch is
exactly the loop's behaviour. -/
def fillTickLoop : List Order → Nat → AccountStore → Nat × List Order × AccountStore
  | [], q, s => (q, [], s)
  | o :: rest, q, s =>
    if q = 0 then (q, o :: rest, s)
    else
      let r := o.fill_order q s
      if r.order.quantity = 0 then fillTickLoop rest r.remaining r.store
      else (r.remaining, r.order :: rest, r.store)

/-- `Tick::fill_tick`: drain the FIFO queue against `quantity`, returning the
unfilled leftover. -/
def Tick.fill_tick (t : Tick) (quantity : Nat) (s : AccountStore) : FillTickOut :=
  let r := fillTickLoop t.orders quantity s
  { remaining := r.1, tick := { t with orders := r.2.1 }, store := r.2.2 }

/-- `Tick::place_limit`: reject non-limit orders, else append at the tail. -/
def Tick.place_limit (t : Tick) (o : Order) : Except String Tick :=
  if o.order_type ≠ OrderType.Limit then .error "Order is not a limit order"
  else .ok { t with orders := t.orders ++ [o] }

/-- Two's-complement wrapping subtraction on `u64`, used to model the
`tick.total_orders -= filled_quantity` decrement in the sweep loops under
release-mode (wrapping) semantics. -/
def subWrap (a b : Nat) : Nat :=
  (a % 2 ^ 64 + 2 ^ 64 - b % 2 ^ 64) % 2 ^ 64

/-- `u64::MAX`, the "no asks" sentinel of `next_ask_tick`. -/
def UMAX : Nat := 2 ^ 64 - 1

/-- Model of `BTreeMap<u64, Tick>`: an association list whose keys are kept
strictly ascending. -/
abbrev TickMap := List (Nat × Tick)

/-- Lookup in the price index (`BTreeMap::get`). -/
def TickMap.find : TickMap → Nat → Option Tick
  | [], _ => none
  | (k, t) :: rest, k1 => if k1 = k then some t else TickMap.find rest k1

/-- `BTreeMap::contains_key`. -/
def TickMap.contains (m : TickMap) (k : Nat) : Bool :=
  (m.find k).isSome

/-- Sorted insertion (`BTreeMap::insert` / `entry().or_insert`): replaces the
entry when the key is present, otherwise inserts in key order. -/
def TickMap.insert : TickMap → Nat → Tick → TickMap
  | [], k, t => [(k, t)]
  | (k1, t1) :: rest, k, t =>
    if k < k1 then (k, t) :: (k1, t1) :: rest
    else if k = k1 then (k, t) :: rest
    else (k1, t1) :: TickMap.insert rest k t

/-- `BTreeMap::remove` (drops the first entry with the given key). -/
def TickMap.erase : TickMap → Nat → TickMap
  | [], _ => []
  | (k1, t1) :: rest, k => if k = k1 then rest else (k1, t1) :: TickMap.erase rest k

/-- The deferred `for tick_id in to_remove { self.ticks.remove(&tick_id) }`
pass at the end of a successful sweep. -/
def removeKeys (m : TickMap) (ks : List Nat) : TickMap :=
  ks.foldl TickMap.erase m

/-- The keys of the price index, in iteration order. -/
def TickMap.keys (m : TickMap) : List Nat :=
  m.map Prod.fst

/-- `Orderbook` from `src/book/orderbook.rs`. -/
structure Orderbook where
  book_id : Nat
  quote_asset : Currency
  base_asset : Currency
  next_bid_tick : Nat
  next_ask_tick : Nat
  ticks : TickMap
  cancellation_map : List (Nat × Nat)
deriving DecidableEq, Repr

/-- `Orderbook::new`: OSMO/USD pair, empty index, `next_bid_tick = u64::MIN`,
`next_ask_tick = u64::MAX`, cancellation map seeded with `(0, 0)`. -/
def Orderbook.new (book_id : Nat) : Orderbook :=
  { book_id := book_id
    quote_asset := .OSMO
    base_asset := .USD
    next_bid_tick := 0
    next_ask_tick := UMAX
    ticks := []
    cancellation_map := [(0, 0)] }

/-- Result of one run of a sweep loop body (`run_market_bid` /
`run_market_ask` inner `while`): the visited segment of the iterator with its
in-place updates applied (followed by the unvisited remainder), the keys
queued for deferred removal, the remaining quantity, the updated best-price
cursor, the account store, and the error if the walk aborted. -/
structure LoopOut where
  out : TickMap
  toRemove : List Nat
  remaining : Nat
  cursor : Nat
  store : AccountStore
  err : Option String

/-- The `while` loop of `Orderbook::run_market_bid`, walking the ascending
iterator over `ticks.range_mut(next_ask_tick..)`.  Each visited tick is
filled, its `total_orders` counter is decremented (wrapping), the aggressor is
debited (aborting the walk on error, in which case the deferred removals are
dropped) and credited, and emptied ticks are queued for removal. -/
def marketBidLoop (order : Order) (end_tick : Nat) :
    TickMap → Nat → Nat → AccountStore → LoopOut
  | [], remaining, next_ask, s =>
    { out := [], toRemove := [], remaining := remaining, cursor := next_ask, store := s, err := none }
  | (tid, t) :: rest, remaining, next_ask, s =>
    if remaining = 0 ∨ next_ask = UMAX then
      { out := (tid, t) :: rest, toRemove := [], remaining := remaining, cursor := next_ask,
        store := s, err := none }
    else if end_tick ≤ tid then
      { out := (tid, t) :: rest, toRemove := [], remaining := remaining, cursor := end_tick,
        store := s, err := none }
    else
      let f := t.fill_tick remaining s
      let filled := remaining - f.remaining
      let t2 := { f.tick with total_orders := subWrap f.tick.total_orders filled }
      match order.withdraw_deposited_assets filled t2.tick_id f.store with
      | .error e =>
        { out := (tid, t2) :: rest, toRemove := [], remaining := f.remaining, cursor := tid,
          store := f.store, err := some e }
      | .ok s2 =>
        let s3 := order.distribute_filled_assets filled t2.tick_id s2
        let step : Tick × List Nat :=
          if t2.orders = [] then ({ t2 with total_orders := 0 }, [tid]) else (t2, [])
        let rec1 := marketBidLoop order end_tick rest f.remaining tid s3
        { out := (tid, step.1) :: rec1.out, toRemove := step.2 ++ rec1.toRemove,
          remaining := rec1.remaining, cursor := rec1.cursor, store := rec1.store,
          err := rec1.err }

/-- The `while` loop of `Orderbook::run_market_ask`, walking the iterator over
`ticks.range_mut(..=next_bid_tick)` backwards (descending keys); the input
list is the reversed `takeWhile` segment.  The "no bids" sentinel is
`u64::MIN = 0` and the terminal-bound check is `tid ≤ end_tick`. -/
def marketAskLoop (order : Order) (end_tick : Nat) :
    TickMap → Nat → Nat → AccountStore → LoopOut
  | [], remaining, next_bid, s =>
    { out := [], toRemove := [], remaining := remaining, cursor := next_bid, store := s, err := none }
  | (tid, t) :: rest, remaining, next_bid, s =>
    if remaining = 0 ∨ next_bid = 0 then
      { out := (tid, t) :: rest, toRemove := [], remaining := remaining, cursor := next_bid,
        store := s, err := none }
    else if tid ≤ end_tick then
      { out := (tid, t) :: rest, toRemove := [], remaining := remaining, cursor := end_tick,
        store := s, err := none }
    else
      let f := t.fill_tick remaining s
      let filled := remaining - f.remaining
      let t2 := { f.tick with total_orders := subWrap f.tick.total_orders filled }
      match order.withdraw_deposited_assets filled t2.tick_id f.store with
      | .error e =>
        { out := (tid, t2) :: rest, toRemove := [], remaining := f.remaining, cursor := tid,
          store := f.store, err := some e }
      | .ok s2 =>
        let s3 := order.distribute_filled_assets filled t2.tick_id s2
        let step : Tick × List Nat :=
          if t2.orders = [] then ({ t2 with total_orders := 0 }, [tid]) else (t2, [])
        let rec1 := marketAskLoop order end_tick rest f.remaining tid s3
        { out := (tid, step.1) :: rec1.out, toRemove := step.2 ++ rec1.toRemove,
          remaining := rec1.remaining, cursor := rec1.cursor, store := rec1.store,
          err := rec1.err }

/-- Result of `run_market_bid` / `run_market_ask`: the mutated book and store
are returned even on error, since `&mut self` mutations made before the early
`return Err(..)` persist in the Rust code. -/
structure SweepOut where
  book : Orderbook
  store : AccountStore
  res : Except String Nat

/-- `Orderbook::run_market_bid`: split the index at `next_ask_tick`, walk the
upper segment ascending, and (only on success) apply the deferred removals of
emptied ticks. -/
def Orderbook.run_market_bid (b : Orderbook) (order : Order) (end_tick quantity : Nat)
    (s : AccountStore) : SweepOut :=
  let pre := b.ticks.takeWhile (fun p => p.1 < b.next_ask_tick)
  let iter := b.ticks.dropWhile (fun p => p.1 < b.next_ask_tick)
  let r := marketBidLoop order end_tick iter quantity b.next_ask_tick s
  match r.err with
  | some e =>
    { book := { b with ticks := pre ++ r.out, next_ask_tick := r.cursor }, store := r.store,
      res := .error e }
  | none =>
    { book := { b with ticks := removeKeys (pre ++ r.out) r.toRemove, next_ask_tick := r.cursor },
      store := r.store, res := .ok r.remaining }

/-- `Orderbook::run_market_ask`: split the index at `next_bid_tick`, walk the
lower segment descending, and (only on success) apply the deferred removals. -/
def Orderbook.run_market_ask (b : Orderbook) (order : Order) (end_tick quantity : Nat)
    (s : AccountStore) : SweepOut :=
  let seg := b.ticks.takeWhile (fun p => p.1 ≤ b.next_bid_tick)
  let post := b.ticks.dropWhile (fun p => p.1 ≤ b.next_bid_tick)
  let r := marketAskLoop order end_tick seg.reverse quantity b.next_bid_tick s
  match r.err with
  | some e =>
    { book := { b with ticks := r.out.reverse ++ post, next_bid_tick := r.cursor }, store := r.store,
      res := .error e }
  | none =>
    { book :=
        { b with ticks := removeKeys (r.out.reverse ++ post) r.toRemove, next_bid_tick := r.cursor }
      store := r.store, res := .ok r.remaining }

/-- Result of the order-handling entry points: book, (possibly resized) order,
store, and the `Result<(), Error>` value. -/
structure OpOut where
  book : Orderbook
  order : Order
  store : AccountStore
  res : Except String Unit

/-- `Orderbook::run_place_limit`: lazily create the tick (note: before the
collateral withdrawal, so a failed withdrawal can leave a fresh empty tick in
the index), withdraw the order's full collateral, append a clone of the order
to the tick's queue, and advance the relevant best-price cursor if improved. -/
def Orderbook.run_place_limit (b : Orderbook) (order : Order) (s : AccountStore) : OpOut :=
  let tick_id := order.tick_id
  let ticks1 := if b.ticks.contains tick_id then b.ticks else b.ticks.insert tick_id (Tick.new tick_id)
  let b1 := { b with ticks := ticks1 }
  match order.withdraw_deposited_assets order.quantity tick_id s with
  | .error e => { book := b1, order := order, store := s, res := .error e }
  | .ok s1 =>
    let t := (ticks1.find tick_id).getD (Tick.new tick_id)
    match t.place_limit order with
    | .error e => { book := b1, order := order, store := s1, res := .error e }
    | .ok t1 =>
      let b2 := { b1 with ticks := ticks1.insert tick_id t1 }
      match order.order_direction with
      | .Bid =>
        if b.next_bid_tick < tick_id then
          { book := { b2 with next_bid_tick := tick_id }, order := order, store := s1, res := .ok () }
        else { book := b2, order := order, store := s1, res := .ok () }
      | .Ask =>
        if tick_id < b.next_ask_tick then
          { book := { b2 with next_ask_tick := tick_id }, order := order, store := s1, res := .ok () }
        else { book := b2, order := order, store := s1, res := .ok () }

/-- `Orderbook::run_partial_or_full_limit`: if the limit order's price is
strictly past the opposite best cursor, first sweep the opposite side bounded
by the order's own price; any positive remainder is resized onto the order and
rested via `run_place_limit`. -/
def Orderbook.run_partial_or_full_limit (b : Orderbook) (order : Order) (s : AccountStore) :
    OpOut :=
  let tick_id := order.tick_id
  match order.order_direction with
  | .Bid =>
    if b.next_ask_tick < tick_id then
      let r := b.run_market_bid order tick_id order.quantity s
      match r.res with
      | .error e => { book := r.book, order := order, store := r.store, res := .error e }
      | .ok remaining =>
        if 0 < remaining then r.book.run_place_limit (order.set_quantity remaining) r.store
        else { book := r.book, order := order, store := r.store, res := .ok () }
    else
      if 0 < order.quantity then b.run_place_limit (order.set_quantity order.quantity) s
      else { book := b, order := order, store := s, res := .ok () }
  | .Ask =>
    if tick_id < b.next_bid_tick then
      let r := b.run_market_ask order tick_id order.quantity s
      match r.res with
      | .error e => { book := r.book, order := order, store := r.store, res := .error e }
      | .ok remaining =>
        if 0 < remaining then r.book.run_place_limit (order.set_quantity remaining) r.store
        else { book := r.book, order := order, store := r.store, res := .ok () }
    else
      if 0 < order.quantity then b.run_place_limit (order.set_quantity order.quantity) s
      else { book := b, order := order, store := s, res := .ok () }

/-- `Orderbook::run_market_order`: a Bid sweeps asks up to `u64::MAX`, an Ask
sweeps bids down to `u64::MIN`; the leftover quantity is dropped quietly and
the order itself is untouched. -/
def Orderbook.run_market_order (b : Orderbook) (order : Order) (s : AccountStore) : OpOut :=
  match order.order_direction with
  | .Bid =>
    let r := b.run_market_bid order UMAX order.quantity s
    match r.res with
    | .error e => { book := r.book, order := order, store := r.store, res := .error e }
    | .ok _ => { book := r.book, order := order, store := r.store, res := .ok () }
  | .Ask =>
    let r := b.run_market_ask order 0 order.quantity s
    match r.res with
    | .error e => { book := r.book, order := order, store := r.store, res := .error e }
    | .ok _ => { book := r.book, order := order, store := r.store, res := .ok () }

/-- `Orderbook::handle_order`: the sole mutating entry point, dispatching on
the order type. -/
def Orderbook.handle_order (b : Orderbook) (order : Order) (s : AccountStore) : OpOut :=
  match order.order_type with
  | .Market => b.run_market_order order s
  | .Limit => b.run_partial_or_full_limit order s

/-- Total resting quantity at a price level: the sum of the quantities of the
orders in its queue (the spec's "units resting"). -/
def Tick.restingQuantity (t : Tick) : Nat :=
  (t.orders.map Order.quantity).sum

/-- A resting limit ask of quantity `q` at level `tid`, owned by account
`ownerId` (mirrors the repo's test fixtures). -/
def askOrder (oid ownerId tid q : Nat) : Order :=
  { order_id := oid, tick_id := tid, book_id := 0, owner := ownerId,
    order_type := .Limit, order_direction := .Ask, quantity := q }

/-- A price level holding the given queue, with the aggregate counter at its
placement-path value 0. -/
def tickWith (tid : Nat) (os : List Order) : Tick :=
  { tick_id := tid, next_order := 0, orders := os, total_orders := 0 }

/-- The ask-side fixture of the claims: 300 units of resting asks (3 orders of
100) at each of the levels 10, 13, 14, 21, owned by accounts 1..12. -/
def askBook : Orderbook :=
  { book_id := 0
    quote_asset := .OSMO
    base_asset := .USD
    next_bid_tick := 0
    next_ask_tick := 10
    ticks :=
      [(10, tickWith 10 [askOrder 0 1 10 100, askOrder 1 2 10 100, askOrder 2 3 10 100]),
       (13, tickWith 13 [askOrder 3 4 13 100, askOrder 4 5 13 100, askOrder 5 6 13 100]),
       (14, tickWith 14 [askOrder 6 7 14 100, askOrder 7 8 14 100, askOrder 8 9 14 100]),
       (21, tickWith 21 [askOrder 9 10 21 100, askOrder 10 11 21 100, askOrder 11 12 21 100])]
    cancellation_map := [(0, 0)] }

/-- The funded market-bid aggressor of the claims: quantity 1000, owner
account 100. -/
def bidAggressor : Order :=
  { order_id := 13, tick_id := 0, book_id := 0, owner := 100,
    order_type := .Market, order_direction := .Bid, quantity := 1000 }

/-- The store funding the aggressor's owner with 100000 USD and 10000 OSMO
(every other account starts empty). -/
def fundedStore : AccountStore :=
  storeDeposit (storeDeposit (fun i => Account.new i .Individual) 100 .USD 100000) 100 .OSMO 10000

/-- Ask-side fixture with two levels (10 and 13, 300 units each, owners 1..6),
used for partial-failure scenarios. -/
def twoLevelAskBook : Orderbook :=
  { book_id := 0
    quote_asset := .OSMO
    base_asset := .USD
    next_bid_tick := 0
    next_ask_tick := 10
    ticks :=
      [(10, tickWith 10 [askOrder 0 1 10 100, askOrder 1 2 10 100, askOrder 2 3 10 100]),
       (13, tickWith 13 [askOrder 3 4 13 100, askOrder 4 5 13 100, askOrder 5 6 13 100])]
    cancellation_map := [(0, 0)] }

/-- A market-bid aggressor (owner 200) whose owner holds exactly 3000 USD:
enough to pay for level 10 but not level 13. -/
def shortFundedBid : Order :=
  { order_id := 13, tick_id := 0, book_id := 0, owner := 200,
    order_type := .Market, order_direction := .Bid, quantity := 1000 }

/-- Store funding account 200 with exactly 3000 USD. -/
def shortStore : AccountStore :=
  storeDeposit (fun i => Account.new i .Individual) 200 .USD 3000

/-- Single-level ask book: one resting ask of 100 at level 10 (owner 1). -/
def oneAskBook : Orderbook :=
  { book_id := 0
    quote_asset := .OSMO
    base_asset := .USD
    next_bid_tick := 0
    next_ask_tick := 10
    ticks := [(10, tickWith 10 [askOrder 0 1 10 100])]
    cancellation_map := [(0, 0)] }

/-- Unfunded market-bid aggressor (owner 300, empty balances). -/
def pennilessBid : Order :=
  { order_id := 13, tick_id := 0, book_id := 0, owner := 300,
    order_type := .Market, order_direction := .Bid, quantity := 100 }

/-- Store in which every account is empty. -/
def emptyStore : AccountStore :=
  fun i => Account.new i .Individual

/-- A limit bid priced exactly at the best ask (tick 10), quantity 50, owner 2. -/
def equalPriceLimitBid : Order :=
  { order_id := 7, tick_id := 10, book_id := 0, owner := 2,
    order_type := .Limit, order_direction := .Bid, quantity := 50 }

/-- Store funding account 2 with 10000 USD. -/
def bidderStore : AccountStore :=
  storeDeposit (fun i => Account.new i .Individual) 2 .USD 10000

/-- Fold the normal placement path over a queue of orders: each order is
appended via `Tick::place_limit` (rejected orders leave the tick unchanged). -/
def placeAllLimits (t : Tick) (os : List Order) : Tick :=
  os.foldl (fun t1 o => match t1.place_limit o with | .ok t2 => t2 | .error _ => t1) t

/-- Ledger commands for conservation statements: a deposit or a withdrawal
attempt. -/
inductive LedgerOp where
  | dep (currency : Currency) (amount : Nat)
  | wd (currency : Currency) (amount : Nat)

/-- Run a sequence of ledger commands against an account; a failed withdrawal
leaves the account as it was. -/
def runLedgerOps (a : Account) : List LedgerOp → Account
  | [] => a
  | .dep c amt :: rest => runLedgerOps (a.deposit c amt) rest
  | .wd c amt :: rest =>
    match a.withdraw c amt with
    | .ok a1 => runLedgerOps a1 rest
    | .error _ => runLedgerOps a rest

/-- Total amount deposited into `c` by a command sequence. -/
def depositSum (c : Currency) : List LedgerOp → Nat
  | [] => 0
  | .dep c1 amt :: rest => (if c1 = c then amt else 0) + depositSum c rest
  | .wd _ _ :: rest => depositSum c rest

/-- Total amount withdrawn from `c` by the withdrawals that succeed when the
sequence is run from `a`. -/
def successfulWithdrawSum (c : Currency) : Account → List LedgerOp → Nat
  | _, [] => 0
  | a, .dep c1 amt :: rest => successfulWithdrawSum c (a.deposit c1 amt) rest
  | a, .wd c1 amt :: rest =>
    match a.withdraw c1 amt with
    | .ok a1 => (if c1 = c then amt else 0) + successfulWithdrawSum c a1 rest
    | .error _ => successfulWithdrawSum c a rest

/-- One of the ten equal resting orders of the FIFO fixture (quantity 10). -/
def tenOrder : Order :=
  { order_id := 0, tick_id := 0, book_id := 0, owner := 1,
    order_type := .Market, order_direction := .Bid, quantity := 10 }

/-- The FIFO fixture: a level holding ten resting orders of quantity 10. -/
def tenTick : Tick :=
  tickWith 0 (List.replicate 10 tenOrder)

/-- The price index's structural invariant: keys strictly ascending (as in a
`BTreeMap`). -/
def SortedTickKeys (m : TickMap) : Prop :=
  List.Pairwise (· < ·) m.keys

/-- The claimed index invariant: every entry of the price index has a
non-empty queue (an entry exists exactly for the ticks holding at least one
resting order). -/
def NonemptyQueues (m : TickMap) : Prop :=
  ∀ p ∈ m, Tick.orders p.2 ≠ []

/-- The book invariant: a sorted index all of whose entries hold at least one
resting order. -/
def BookInv (b : Orderbook) : Prop :=
  SortedTickKeys b.ticks ∧ NonemptyQueues b.ticks

instance (m : TickMap) : Decidable (SortedTickKeys m) :=
  inferInstanceAs (Decidable (List.Pairwise _ _))

instance (m : TickMap) : Decidable (NonemptyQueues m) :=
  inferInstanceAs (Decidable (∀ p ∈ m, _ ≠ _))

instance (b : Orderbook) : Decidable (BookInv b) :=
  inferInstanceAs (Decidable (_ ∧ _))

/-- A plain resting limit bid (tick 5, quantity 10, owner 2) used to exercise
the placement path on a fresh book. -/
def freshLimitBid : Order :=
  { order_id := 1, tick_id := 5, book_id := 0, owner := 2,
    order_type := .Limit, order_direction := .Bid, quantity := 10 }

/-- Auxiliary: a successful `Tick::place_limit` only appends to the queue and
never touches the `total_orders` counter. -/
theorem place_limit_total_orders (t : Tick) (o : Order) (t1 : Tick)
    (h : t.place_limit o = .ok t1) : t1.total_orders = t.total_orders := by
  unfold Tick.place_limit at h
  split at h
  · exact absurd h (by simp)
  · cases h
    rfl

/-- Auxiliary: the placement fold never changes `total_orders`. -/
theorem placeAllLimits_total_orders (os : List Order) (t : Tick) :
    (placeAllLimits t os).total_orders = t.total_orders := by
  induction os generalizing t with
  | nil => rfl
  | cons o rest ih =>
    show (placeAllLimits _ rest).total_orders = _
    rw [ih]
    rcases h : t.place_limit o with e | t2
    · simp [placeAllLimits, h]
    · simp [placeAllLimits, h, place_limit_total_orders t o t2 h]

/-- C1: with 300 units of resting asks at each of the levels 10, 13, 14 and 21
and the best-ask cursor at 10, an unbounded `run_market_bid` (terminal bound
`u64::MAX`) for a funded Bid aggressor of quantity 1000 fills completely,
drains levels 10, 13 and 14 (removing them from the index), leaves level 21
resting 200 units, sets the best-ask cursor to 21, credits the aggressor's
owner exactly 1000 OSMO and debits exactly `300*10 + 300*13 + 300*14 + 100*21`
USD. -/
theorem unbounded_sweep_fills_and_settles :
    ((askBook.run_market_bid bidAggressor UMAX 1000 fundedStore).res = .ok 0) ∧
      ((askBook.run_market_bid bidAggressor UMAX 1000 fundedStore).book.ticks.find 10 = none) ∧
      ((askBook.run_market_bid bidAggressor UMAX 1000 fundedStore).book.ticks.find 13 = none) ∧
      ((askBook.run_market_bid bidAggressor UMAX 1000 fundedStore).book.ticks.find 14 = none) ∧
      (((askBook.run_market_bid bidAggressor UMAX 1000 fundedStore).book.ticks.find 21).map
          Tick.restingQuantity = some 200) ∧
      ((askBook.run_market_bid bidAggressor UMAX 1000 fundedStore).book.next_ask_tick = 21) ∧
      (((askBook.run_market_bid bidAggressor UMAX 1000 fundedStore).store 100).balance .OSMO
        = (fundedStore 100).balance .OSMO + 1000) ∧
      (((askBook.run_market_bid bidAggressor UMAX 1000 fundedStore).store 100).balance .USD
        = (fundedStore 100).balance .USD - (300 * 10 + 300 * 13 + 300 * 14 + 100 * 21)) :=
  ⟨rfl, rfl, rfl, rfl, rfl, rfl, rfl, rfl⟩

/-- C5: `Tick::new` starts the `total_orders` aggregate at 0 and the placement
path never increments it, so any tick populated exclusively through
`place_limit` still has `total_orders = 0`; hence every sweep step draining a
positive quantity `f` violates the checked-subtraction precondition
`f ≤ total_orders` of `tick.total_orders -= filled_quantity`, and the
release-mode wrapping decrement underflows to `2 ^ 64 - f`. -/
theorem total_orders_counter_underflows :
    (∀ (t : Tick) (o : Order) (t1 : Tick),
        t.place_limit o = .ok t1 → t1.total_orders = t.total_orders) ∧
      (∀ tid os, (placeAllLimits (Tick.new tid) os).total_orders = 0) ∧
      (∀ tid os f, 0 < f → f < 2 ^ 64 →
        ¬ (f ≤ (placeAllLimits (Tick.new tid) os).total_orders) ∧
          subWrap (placeAllLimits (Tick.new tid) os).total_orders f = 2 ^ 64 - f) := by
  refine ⟨place_limit_total_orders, ?_, ?_⟩
  · intro tid os
    exact placeAllLimits_total_orders os (Tick.new tid)
  · intro tid os f hf hlt
    rw [placeAllLimits_total_orders os (Tick.new tid)]
    constructor
    · show ¬ (f ≤ 0)
      omega
    · show (0 % 2 ^ 64 + 2 ^ 64 - f % 2 ^ 64) % 2 ^ 64 = 2 ^ 64 - f
      rw [Nat.zero_mod, Nat.mod_eq_of_lt hlt, Nat.zero_add, Nat.mod_eq_of_lt (by omega)]

/-- Witness for the underflow theorem at the repo's own fixture: a tick built
by placing three limit asks of 100, decremented by a drained quantity of 300. -/
theorem total_orders_counter_underflows_witness :
    ¬ (300 ≤ (placeAllLimits (Tick.new 10)
        [askOrder 0 1 10 100, askOrder 1 2 10 100, askOrder 2 3 10 100]).total_orders) ∧
      subWrap (placeAllLimits (Tick.new 10)
        [askOrder 0 1 10 100, askOrder 1 2 10 100, askOrder 2 3 10 100]).total_orders 300
        = 2 ^ 64 - 300 :=
  total_orders_counter_underflows.2.2 10
    [askOrder 0 1 10 100, askOrder 1 2 10 100, askOrder 2 3 10 100] 300
    (by decide) (by norm_num)

/-- C7: `fill_order` returns `max(0, fill_quantity - quantity_before)`, leaves
the order's quantity at `quantity_before - (fill_quantity - remainder) ≥ 0`,
and settles the consumed portion by crediting the owner at the order's own
resting price `tick_id`. -/
theorem fill_order_arithmetic (o : Order) (fill_quantity : Nat) (s : AccountStore) :
    (((o.fill_order fill_quantity s).remaining : ℤ)
        = max 0 ((fill_quantity : ℤ) - (o.quantity : ℤ))) ∧
      (((o.fill_order fill_quantity s).order.quantity : ℤ)
        = (o.quantity : ℤ)
            - ((fill_quantity : ℤ) - ((o.fill_order fill_quantity s).remaining : ℤ))) ∧
      (0 ≤ ((o.fill_order fill_quantity s).order.quantity : ℤ)) ∧
      ((o.fill_order fill_quantity s).store
        = o.distribute_filled_assets (fill_quantity - (o.fill_order fill_quantity s).remaining)
            o.tick_id s) := by
  unfold Order.fill_order
  by_cases h : fill_quantity < o.quantity
  · simp only [if_pos h]
    refine ⟨?_, ?_, ?_, rfl⟩ <;> push_cast <;> omega
  · simp only [if_neg h]
    refine ⟨?_, ?_, ?_, rfl⟩ <;> push_cast [Nat.sub_sub_self (Nat.le_of_not_lt h)] <;> omega

/-- Auxiliary: a successful withdrawal had sufficient funds, subtracts exactly
`amt` from the touched balance, and leaves every other balance unchanged. -/
theorem withdraw_ok_balance (a : Account) (c : Currency) (amt : Nat) (a1 : Account)
    (h : a.withdraw c amt = .ok a1) :
    amt ≤ a.balance c ∧ a1.balance c = a.balance c - amt ∧
      ∀ c1, c1 ≠ c → a1.balance c1 = a.balance c1 := by
  unfold Account.withdraw at h
  split at h
  · exact absurd h (by simp)
  case isFalse hge =>
    cases h
    refine ⟨Nat.le_of_not_lt hge, by simp [Account.balance], fun c1 hne => ?_⟩
    simp [Account.balance, hne]

/-- C9: `deposit` always succeeds and adds exactly `amount` (touching no other
balance); `withdraw` fails with "Insufficient funds" exactly when the balance
is short, leaving everything unchanged, and otherwise subtracts exactly
`amount` (touching no other balance); consequently over any command sequence
the balance equals starting balance plus deposits minus successful
withdrawals. -/
theorem ledger_conservation :
    (∀ (a : Account) c amt, (a.deposit c amt).balance c = a.balance c + amt) ∧
      (∀ (a : Account) c c1 amt, c1 ≠ c → (a.deposit c amt).balance c1 = a.balance c1) ∧
      (∀ (a : Account) c amt,
        a.withdraw c amt = .error "Insufficient funds" ↔ a.balance c < amt) ∧
      (∀ (a : Account) c amt a1, a.withdraw c amt = .ok a1 →
        a1.balance c = a.balance c - amt ∧ ∀ c1, c1 ≠ c → a1.balance c1 = a.balance c1) ∧
      (∀ (a : Account) ops c,
        (runLedgerOps a ops).balance c + successfulWithdrawSum c a ops
          = a.balance c + depositSum c ops) := by
  refine ⟨?_, ?_, ?_, ?_, ?_⟩
  · intro a c amt
    simp [Account.deposit, Account.balance]
  · intro a c c1 amt h
    simp [Account.deposit, Account.balance, h]
  · intro a c amt
    unfold Account.withdraw
    constructor
    · intro h
      by_cases hlt : a.balances c < amt
      · exact hlt
      · rw [if_neg hlt] at h
        exact absurd h (by simp)
    · intro hlt
      rw [if_pos (show a.balances c < amt from hlt)]
  · intro a c amt a1 h
    exact (withdraw_ok_balance a c amt a1 h).2
  · intro a ops c
    induction ops generalizing a with
    | nil => rfl
    | cons op rest ih =>
      cases op with
      | dep c1 amt =>
        show (runLedgerOps _ rest).balance c + successfulWithdrawSum c _ rest
          = a.balance c + ((if c1 = c then amt else 0) + depositSum c rest)
        rw [ih (a.deposit c1 amt)]
        by_cases hc : c1 = c
        · subst hc
          simp [Account.deposit, Account.balance]
          omega
        · simp [Account.deposit, Account.balance, Ne.symm hc, hc]
      | wd c1 amt =>
        rcases hw : a.withdraw c1 amt with e | a1
        · simp only [runLedgerOps, successfulWithdrawSum, depositSum, hw]
          exact ih a
        · simp only [runLedgerOps, successfulWithdrawSum, depositSum, hw]
          obtain ⟨hge, h1, h2⟩ := withdraw_ok_balance a c1 amt a1 hw
          by_cases hc : c1 = c
          · subst hc
            have h3 := ih a1
            simp only [eq_self_iff_true, if_true]
            omega
          · have h3 := ih a1
            have h4 := h2 c (by exact fun hcc => hc hcc.symm)
            simp only [if_neg hc]
            omega

/-- C10: `handle_order` on a Market order never mutates the order itself (in
particular its `quantity` field): the sweep tracks the filled amount only in a
local remaining-quantity value and in the ledger, and `set_quantity` is applied
only on the limit path. -/
theorem market_order_quantity_frame (b : Orderbook) (o : Order) (s : AccountStore)
    (h : o.order_type = .Market) :
    (b.handle_order o s).order = o := by
  unfold Orderbook.handle_order
  rw [h]
  unfold Orderbook.run_market_order
  rcases o.order_direction <;> dsimp only <;> split <;> rfl

/-- Witness: a concrete market order (the unfunded bid, whose sweep errors) is
returned unchanged. -/
theorem market_order_quantity_frame_witness :
    (oneAskBook.handle_order pennilessBid emptyStore).order = pennilessBid :=
  market_order_quantity_frame oneAskBook pennilessBid emptyStore rfl

/-- Auxiliary: the bid-sweep loop returns a segment with exactly the keys of
its input iterator (visited ticks are updated in place, never dropped:
removal of emptied ticks is deferred). -/
theorem marketBidLoop_keys (order : Order) (end_tick : Nat) :
    ∀ (iter : TickMap) (remaining next_ask : Nat) (s : AccountStore),
      (marketBidLoop order end_tick iter remaining next_ask s).out.keys = iter.keys := by
  intro iter
  induction iter with
  | nil => intro remaining na s; rfl
  | cons p rest ih =>
    obtain ⟨tid, t⟩ := p
    intro remaining na s
    by_cases h0 : remaining = 0 ∨ na = UMAX
    · simp [marketBidLoop, h0]
    · by_cases h1 : end_tick ≤ tid
      · simp [marketBidLoop, h0, h1]
      · simp only [marketBidLoop, if_neg h0, if_neg h1]
        split
        · rfl
        · simp only [TickMap.keys, List.map_cons, List.cons.injEq]
          exact ⟨trivial, ih _ _ _⟩

/-- Auxiliary: the bid-sweep loop never touches a tick at or past the terminal
bound (it stops at the first such key), and every key it queues for removal is
strictly below the bound. -/
theorem marketBidLoop_find_ge (order : Order) (end_tick k : Nat) (hk : end_tick ≤ k) :
    ∀ (iter : TickMap) (remaining next_ask : Nat) (s : AccountStore),
      (TickMap.find (marketBidLoop order end_tick iter remaining next_ask s).out k
          = TickMap.find iter k) ∧
        ∀ j ∈ (marketBidLoop order end_tick iter remaining next_ask s).toRemove, j < end_tick := by
  intro iter
  induction iter with
  | nil =>
    intro remaining na s
    exact ⟨rfl, by intro j hj; simp [marketBidLoop] at hj⟩
  | cons p rest ih =>
    obtain ⟨tid, t⟩ := p
    intro remaining na s
    by_cases h0 : remaining = 0 ∨ na = UMAX
    · refine ⟨by simp [marketBidLoop, h0], ?_⟩
      intro j hj
      simp [marketBidLoop, h0] at hj
    · by_cases h1 : end_tick ≤ tid
      · refine ⟨by simp [marketBidLoop, h0, h1], ?_⟩
        intro j hj
        simp [marketBidLoop, h0, h1] at hj
      · have hktid : k ≠ tid := by omega
        simp only [marketBidLoop, if_neg h0, if_neg h1]
        split
        · refine ⟨?_, ?_⟩
          · simp [TickMap.find, hktid]
          · intro j hj
            simp at hj
        · refine ⟨?_, ?_⟩
          · show TickMap.find ((tid, _) :: _) k = TickMap.find ((tid, t) :: rest) k
            simp only [TickMap.find, if_neg hktid]
            exact (ih _ _ _).1
          · intro j hj
            simp only [List.mem_append] at hj
            rcases hj with hj1 | hj2
            · split at hj1
              · simp at hj1
                omega
              · simp at hj1
            · exact (ih _ _ _).2 j hj2

/-- Auxiliary: lookups distribute over an unchanged prefix. -/
theorem find_append_congr (a b1 b2 : TickMap) (k : Nat)
    (h : b1.find k = b2.find k) :
    TickMap.find (a ++ b1) k = TickMap.find (a ++ b2) k := by
  induction a with
  | nil => exact h
  | cons p rest ih =>
    obtain ⟨k1, t1⟩ := p
    show (if k = k1 then some t1 else TickMap.find (rest ++ b1) k)
      = (if k = k1 then some t1 else TickMap.find (rest ++ b2) k)
    rw [ih]

/-- Auxiliary: erasing a different key leaves a lookup unchanged. -/
theorem find_erase_ne (m : TickMap) (j k : Nat) (h : k ≠ j) :
    TickMap.find (m.erase j) k = m.find k := by
  induction m with
  | nil => rfl
  | cons p rest ih =>
    obtain ⟨k1, t1⟩ := p
    by_cases hj : j = k1
    · subst hj
      simp [TickMap.erase, TickMap.find, h]
    · simp [TickMap.erase, hj, TickMap.find, ih]

/-- Auxiliary: the deferred-removal pass leaves lookups at untargeted keys
unchanged. -/
theorem find_removeKeys (ks : List Nat) (m : TickMap) (k : Nat)
    (h : ∀ j ∈ ks, k ≠ j) :
    TickMap.find (removeKeys m ks) k = m.find k := by
  induction ks generalizing m with
  | nil => rfl
  | cons j rest ih =>
    show TickMap.find (removeKeys (m.erase j) rest) k = _
    rw [ih (m.erase j) (fun j1 hj1 => h j1 (List.mem_cons_of_mem j hj1)),
      find_erase_ne m j k (h j (List.mem_cons_self j rest))]

/-- C6: with the same four-level ask fixture, a sweep bounded at terminal tick
21 drains only levels 10, 13 and 14 (900 units, debiting exactly
`300*10 + 300*13 + 300*14` USD and crediting 900 OSMO), leaves level 21
untouched and resting 300, and clamps the best-ask cursor to 21; in general
the terminal bound is exclusive: any price level at or past the bound is left
exactly as it was by `run_market_bid`. -/
theorem bounded_sweep_terminal_exclusive (b : Orderbook) (o : Order)
    (end_tick quantity k : Nat) (s : AccountStore) (hk : end_tick ≤ k) :
    ((b.run_market_bid o end_tick quantity s).book.ticks.find k = b.ticks.find k) ∧
      ((askBook.run_market_bid bidAggressor 21 1000 fundedStore).res = .ok 100) ∧
      ((askBook.run_market_bid bidAggressor 21 1000 fundedStore).book.ticks.find 10 = none) ∧
      ((askBook.run_market_bid bidAggressor 21 1000 fundedStore).book.ticks.find 13 = none) ∧
      ((askBook.run_market_bid bidAggressor 21 1000 fundedStore).book.ticks.find 14 = none) ∧
      (((askBook.run_market_bid bidAggressor 21 1000 fundedStore).book.ticks.find 21).map
          Tick.restingQuantity = some 300) ∧
      ((askBook.run_market_bid bidAggressor 21 1000 fundedStore).book.next_ask_tick = 21) ∧
      (((askBook.run_market_bid bidAggressor 21 1000 fundedStore).store 100).balance .OSMO
        = (fundedStore 100).balance .OSMO + 900) ∧
      (((askBook.run_market_bid bidAggressor 21 1000 fundedStore).store 100).balance .USD
        = (fundedStore 100).balance .USD - (300 * 10 + 300 * 13 + 300 * 14)) := by
  refine ⟨?_, rfl, rfl, rfl, rfl, rfl, rfl, rfl, rfl⟩
  obtain ⟨hfind, hrem⟩ := marketBidLoop_find_ge o end_tick k hk
    (b.ticks.dropWhile (fun p => p.1 < b.next_ask_tick)) quantity b.next_ask_tick s
  simp only [Orderbook.run_market_bid]
  split
  · show TickMap.find (_ ++ _) k = _
    rw [find_append_congr _ _ _ k hfind, List.takeWhile_append_dropWhile]
  · show TickMap.find (removeKeys (_ ++ _) _) k = _
    rw [find_removeKeys _ _ k (fun j hj => by have := hrem j hj; omega),
      find_append_congr _ _ _ k hfind, List.takeWhile_append_dropWhile]

/-- Witness for the bounded-sweep theorem, instantiated at `k = 21` on the
fixture itself: level 21 is looked up unchanged. -/
theorem bounded_sweep_terminal_exclusive_witness :
    ((askBook.run_market_bid bidAggressor 21 1000 fundedStore).book.ticks.find 21
        = askBook.ticks.find 21) ∧
      ((askBook.run_market_bid bidAggressor 21 1000 fundedStore).book.next_ask_tick = 21) :=
  ⟨(bounded_sweep_terminal_exclusive askBook bidAggressor 21 1000 21 fundedStore
      (by decide)).1,
    (bounded_sweep_terminal_exclusive askBook bidAggressor 21 1000 21 fundedStore
      (by decide)).2.2.2.2.2.2.1⟩

/-- Auxiliary: keys of an appended index. -/
theorem keys_append (a b : TickMap) : TickMap.keys (a ++ b) = a.keys ++ b.keys :=
  List.map_append _ a b

/-- Auxiliary: keys of a reversed index. -/
theorem keys_reverse (a : TickMap) : TickMap.keys a.reverse = a.keys.reverse :=
  List.map_reverse _ a

/-- Auxiliary: the ask-sweep loop also returns a segment with exactly the keys
of its input iterator. -/
theorem marketAskLoop_keys (order : Order) (end_tick : Nat) :
    ∀ (iter : TickMap) (remaining next_bid : Nat) (s : AccountStore),
      (marketAskLoop order end_tick iter remaining next_bid s).out.keys = iter.keys := by
  intro iter
  induction iter with
  | nil => intro remaining nb s; rfl
  | cons p rest ih =>
    obtain ⟨tid, t⟩ := p
    intro remaining nb s
    by_cases h0 : remaining = 0 ∨ nb = 0
    · simp [marketAskLoop, h0]
    · by_cases h1 : tid ≤ end_tick
      · simp [marketAskLoop, h0, h1]
      · simp only [marketAskLoop, if_neg h0, if_neg h1]
        split
        · rfl
        · simp only [TickMap.keys, List.map_cons, List.cons.injEq]
          exact ⟨trivial, ih _ _ _⟩

/-- Auxiliary: a bid sweep that returns an error performs no pruning at all:
the price index keeps exactly its keys (with in-place fills applied). -/
theorem run_market_bid_error_keys (b : Orderbook) (o : Order) (end_tick quantity : Nat)
    (s : AccountStore) (e : String)
    (h : (b.run_market_bid o end_tick quantity s).res = .error e) :
    (b.run_market_bid o end_tick quantity s).book.ticks.keys = b.ticks.keys := by
  simp only [Orderbook.run_market_bid] at h ⊢
  split at h
  case h_1 e1 heq =>
    show TickMap.keys (_ ++ _) = _
    rw [keys_append, marketBidLoop_keys,
      ← keys_append (b.ticks.takeWhile fun p => p.1 < b.next_ask_tick),
      List.takeWhile_append_dropWhile]
  case h_2 heq =>
    exact absurd h (by simp)

/-- Auxiliary: an ask sweep that returns an error performs no pruning at all. -/
theorem run_market_ask_error_keys (b : Orderbook) (o : Order) (end_tick quantity : Nat)
    (s : AccountStore) (e : String)
    (h : (b.run_market_ask o end_tick quantity s).res = .error e) :
    (b.run_market_ask o end_tick quantity s).book.ticks.keys = b.ticks.keys := by
  simp only [Orderbook.run_market_ask] at h ⊢
  split at h
  case h_1 e1 heq =>
    show TickMap.keys (_ ++ _) = _
    rw [keys_append, keys_reverse, marketAskLoop_keys, keys_reverse, List.reverse_reverse,
      ← keys_append (b.ticks.takeWhile fun p => p.1 ≤ b.next_bid_tick),
      List.takeWhile_append_dropWhile]
  case h_2 heq =>
    exact absurd h (by simp)

/-- C4 counterexample: on a sweep that fails with InsufficientFunds, a price
level emptied before the failing step is NOT absent from the price index — it
remains as an entry with an empty queue, because the deferred removal pass
only runs when the walk completes without error. -/
theorem failed_sweep_leaves_emptied_level_in_index :
    ((twoLevelAskBook.handle_order shortFundedBid shortStore).res
        = .error "Insufficient funds") ∧
      (((twoLevelAskBook.handle_order shortFundedBid shortStore).book.ticks.find 10).map
          Tick.orders = some []) ∧
      ¬ ((twoLevelAskBook.handle_order shortFundedBid shortStore).book.ticks.find 10 = none) :=
  ⟨rfl, rfl, by decide⟩

/-- C4 (amended): a sweep failing with InsufficientFunds mid-walk rolls
nothing back — fills applied before the failure persist, counterparties keep
their proceeds and the error propagates unchanged — but no pruning occurs on
the failing walk: the price index keeps exactly its keys, with levels drained
before the failure remaining in the index with empty queues.  Stated as the
general no-pruning-on-error fact for both sweep directions, together with the
full post-state of the concrete two-level failure scenario. -/
theorem failed_sweep_preserves_applied_fills (b : Orderbook) (o : Order)
    (end_tick quantity : Nat) (s : AccountStore) (e : String) :
    ((b.run_market_bid o end_tick quantity s).res = .error e →
        (b.run_market_bid o end_tick quantity s).book.ticks.keys = b.ticks.keys) ∧
      ((b.run_market_ask o end_tick quantity s).res = .error e →
        (b.run_market_ask o end_tick quantity s).book.ticks.keys = b.ticks.keys) ∧
      ((twoLevelAskBook.handle_order shortFundedBid shortStore).res
        = .error "Insufficient funds") ∧
      (((twoLevelAskBook.handle_order shortFundedBid shortStore).book.ticks.find 10).map
          Tick.orders = some []) ∧
      (((twoLevelAskBook.handle_order shortFundedBid shortStore).book.ticks.find 13).map
          Tick.orders = some []) ∧
      ((twoLevelAskBook.handle_order shortFundedBid shortStore).book.next_ask_tick = 13) ∧
      (((twoLevelAskBook.handle_order shortFundedBid shortStore).store 1).balance .USD = 1000) ∧
      (((twoLevelAskBook.handle_order shortFundedBid shortStore).store 2).balance .USD = 1000) ∧
      (((twoLevelAskBook.handle_order shortFundedBid shortStore).store 3).balance .USD = 1000) ∧
      (((twoLevelAskBook.handle_order shortFundedBid shortStore).store 4).balance .USD = 1300) ∧
      (((twoLevelAskBook.handle_order shortFundedBid shortStore).store 5).balance .USD = 1300) ∧
      (((twoLevelAskBook.handle_order shortFundedBid shortStore).store 6).balance .USD = 1300) ∧
      (((twoLevelAskBook.handle_order shortFundedBid shortStore).store 200).balance .USD = 0) ∧
      (((twoLevelAskBook.handle_order shortFundedBid shortStore).store 200).balance .OSMO = 300) ∧
      ((twoLevelAskBook.handle_order shortFundedBid shortStore).order = shortFundedBid) :=
  ⟨run_market_bid_error_keys b o end_tick quantity s e,
    run_market_ask_error_keys b o end_tick quantity s e,
    rfl, rfl, rfl, rfl, rfl, rfl, rfl, rfl, rfl, rfl, rfl, rfl, rfl⟩

/-- Witness for the no-pruning-on-error fact, at the concrete failing sweep:
the two-level book keeps both keys. -/
theorem failed_sweep_preserves_applied_fills_witness :
    (twoLevelAskBook.run_market_bid shortFundedBid UMAX 1000 shortStore).book.ticks.keys
      = twoLevelAskBook.ticks.keys :=
  (failed_sweep_preserves_applied_fills twoLevelAskBook shortFundedBid UMAX 1000 shortStore
    "Insufficient funds").1 rfl

/-- Auxiliary: `fill_tick`'s loop on `N` equal resting orders of positive
quantity `Q` drains `min (k / Q) N` whole orders, leaves a partial head of
`Q - k % Q` when the walk ends inside an order, and returns `k - N*Q`
(truncated). -/
theorem fillTickLoop_replicate (o : Order) (hQ : 0 < o.quantity) :
    ∀ (N k : Nat) (s : AccountStore),
      ((fillTickLoop (List.replicate N o) k s).1 = k - N * o.quantity) ∧
        ((fillTickLoop (List.replicate N o) k s).2.1.length = N - min (k / o.quantity) N) ∧
        (k < N * o.quantity → k % o.quantity ≠ 0 →
          ((fillTickLoop (List.replicate N o) k s).2.1.head?).map Order.quantity
            = some (o.quantity - k % o.quantity)) := by
  intro N
  induction N with
  | zero =>
    intro k s
    refine ⟨by simp [fillTickLoop], by simp [fillTickLoop], ?_⟩
    intro hlt
    omega
  | succ N ih =>
    intro k s
    rw [List.replicate_succ]
    by_cases hk : k = 0
    · subst hk
      refine ⟨by simp [fillTickLoop], ?_, ?_⟩
      · simp [fillTickLoop, Nat.zero_div]
      · intro hlt hmod
        exact absurd (Nat.zero_mod o.quantity) hmod
    · by_cases hlt : k < o.quantity
      · have hne : ¬ ((o.fill_order k s).order.quantity = 0) := by
          simp only [Order.fill_order, if_pos hlt]
          omega
        have hloop : fillTickLoop (o :: List.replicate N o) k s
            = ((o.fill_order k s).remaining,
                (o.fill_order k s).order :: List.replicate N o,
                (o.fill_order k s).store) := by
          simp only [fillTickLoop, if_neg hk, if_neg hne]
        have hrem : (o.fill_order k s).remaining = 0 := by
          simp only [Order.fill_order, if_pos hlt]
        have hqty : (o.fill_order k s).order.quantity = o.quantity - k := by
          simp only [Order.fill_order, if_pos hlt]
        refine ⟨?_, ?_, ?_⟩
        · rw [hloop]
          have : k ≤ (N + 1) * o.quantity := by
            calc k ≤ o.quantity := Nat.le_of_lt hlt
            _ ≤ (N + 1) * o.quantity := Nat.le_mul_of_pos_left _ (Nat.succ_pos N)
          omega
        · rw [hloop]
          simp only [List.length_cons, List.length_replicate]
          rw [Nat.div_eq_of_lt hlt]
          omega
        · intro hlt2 hmod
          rw [hloop]
          simp [hqty, Nat.mod_eq_of_lt hlt]
      · have hge : o.quantity ≤ k := Nat.le_of_not_lt hlt
        have hz : (o.fill_order k s).order.quantity = 0 := by
          simp only [Order.fill_order, if_neg hlt]
        have hrem : (o.fill_order k s).remaining = k - o.quantity := by
          simp only [Order.fill_order, if_neg hlt]
        have hloop : fillTickLoop (o :: List.replicate N o) k s
            = fillTickLoop (List.replicate N o) (o.fill_order k s).remaining
                (o.fill_order k s).store := by
          simp only [fillTickLoop, if_neg hk, if_pos hz]
        obtain ⟨ih1, ih2, ih3⟩ := ih (k - o.quantity) (o.fill_order k s).store
        have hdiv : k / o.quantity = (k - o.quantity) / o.quantity + 1 :=
          Nat.div_eq_sub_div hQ hge
        have hmul : (N + 1) * o.quantity = N * o.quantity + o.quantity := Nat.succ_mul N _
        refine ⟨?_, ?_, ?_⟩
        · rw [hloop, hrem, ih1]
          omega
        · rw [hloop, hrem, ih2, hdiv]
          omega
        · intro hlt2 hmod
          rw [hloop, hrem]
          rw [Nat.mod_eq_sub_mod hge] at hmod ⊢
          exact ih3 (by omega) hmod

/-- C8: on a level of `N` equal orders of quantity `Q > 0`, `fill_tick k`
removes exactly `min (k / Q) N` orders, applies a partial fill of `k % Q` to
the new head when the walk ends inside an order, and returns
`max 0 (k - N*Q)`; concretely, on ten orders of 10, `fill_tick 55` returns 0
leaving five orders (head holding 5), and a further `fill_tick 50` returns 5
and empties the queue. -/
theorem fill_tick_fifo_draining (o : Order) (tid nord tot k N : Nat) (s : AccountStore)
    (hQ : 0 < o.quantity) :
    (((({ tick_id := tid, next_order := nord, orders := List.replicate N o,
            total_orders := tot } : Tick).fill_tick k s).remaining : ℤ)
        = max 0 ((k : ℤ) - (N : ℤ) * (o.quantity : ℤ))) ∧
      ((({ tick_id := tid, next_order := nord, orders := List.replicate N o,
            total_orders := tot } : Tick).fill_tick k s).tick.orders.length
        = N - min (k / o.quantity) N) ∧
      (k < N * o.quantity → k % o.quantity ≠ 0 →
        ((({ tick_id := tid, next_order := nord, orders := List.replicate N o,
              total_orders := tot } : Tick).fill_tick k s).tick.orders.head?).map Order.quantity
          = some (o.quantity - k % o.quantity)) ∧
      ((tenTick.fill_tick 55 emptyStore).remaining = 0) ∧
      ((tenTick.fill_tick 55 emptyStore).tick.orders.length = 5) ∧
      (((tenTick.fill_tick 55 emptyStore).tick.orders.head?).map Order.quantity = some 5) ∧
      (((tenTick.fill_tick 55 emptyStore).tick.fill_tick 50
          (tenTick.fill_tick 55 emptyStore).store).remaining = 5) ∧
      (((tenTick.fill_tick 55 emptyStore).tick.fill_tick 50
          (tenTick.fill_tick 55 emptyStore).store).tick.orders.length = 0) := by
  obtain ⟨h1, h2, h3⟩ := fillTickLoop_replicate o hQ N k s
  refine ⟨?_, h2, h3, rfl, rfl, rfl, rfl, rfl⟩
  show (((fillTickLoop (List.replicate N o) k s).1 : ℕ) : ℤ) = _
  rw [h1]
  rcases Nat.le_total k (N * o.quantity) with h | h
  · rw [max_eq_left (by omega)]
    omega
  · rw [max_eq_right (by omega)]
    omega

/-- Witness for the FIFO theorem at the ten-order fixture with `k = 55`. -/
theorem fill_tick_fifo_draining_witness :
    (({ tick_id := 0, next_order := 0, orders := List.replicate 10 tenOrder,
        total_orders := 0 } : Tick).fill_tick 55 emptyStore).tick.orders.length
      = 10 - min (55 / tenOrder.quantity) 10 :=
  (fill_tick_fifo_draining tenOrder 0 0 0 55 10 emptyStore (by decide)).2.1

/-- C2 counterexample: a Limit Bid priced exactly at the current best ask does
NOT sweep — `run_partial_or_full_limit` only sweeps on the strict comparison
`tick_id > next_ask_tick` — so the resting ask at the same price is left
untouched, no OSMO is bought, and the bid is queued behind the ask on the very
same tick. -/
theorem equal_price_limit_bid_does_not_sweep :
    ((oneAskBook.handle_order equalPriceLimitBid bidderStore).res = .ok ()) ∧
      (((oneAskBook.handle_order equalPriceLimitBid bidderStore).book.ticks.find 10).map
          (fun t => t.orders.map Order.quantity) = some [100, 50]) ∧
      (((oneAskBook.handle_order equalPriceLimitBid bidderStore).store 1).balance .USD = 0) ∧
      (((oneAskBook.handle_order equalPriceLimitBid bidderStore).store 2).balance .OSMO = 0) ∧
      ((oneAskBook.handle_order equalPriceLimitBid bidderStore).book.next_ask_tick = 10) :=
  ⟨rfl, rfl, rfl, rfl, rfl⟩

/-- C2 (amended): a Limit order sweeps the opposite side first only when its
price strictly crosses the opposite best cursor (bid price > best ask, ask
price < best bid), with the sweep bounded exclusively by the order's own
price, and only afterwards rests any positive remainder at its own price; an
order priced exactly at the opposite best rests directly without consuming
anything. -/
theorem crossing_limit_sweeps_then_rests (b : Orderbook) (o : Order) (s : AccountStore)
    (ht : o.order_type = .Limit) :
    (o.order_direction = .Bid → b.next_ask_tick < o.tick_id →
      b.handle_order o s =
        (match (b.run_market_bid o o.tick_id o.quantity s).res with
         | .error e =>
           { book := (b.run_market_bid o o.tick_id o.quantity s).book, order := o,
             store := (b.run_market_bid o o.tick_id o.quantity s).store, res := .error e }
         | .ok remaining =>
           if 0 < remaining then
             (b.run_market_bid o o.tick_id o.quantity s).book.run_place_limit
               (o.set_quantity remaining) (b.run_market_bid o o.tick_id o.quantity s).store
           else
             { book := (b.run_market_bid o o.tick_id o.quantity s).book, order := o,
               store := (b.run_market_bid o o.tick_id o.quantity s).store, res := .ok () })) ∧
      (o.order_direction = .Bid → o.tick_id ≤ b.next_ask_tick →
        b.handle_order o s =
          (if 0 < o.quantity then b.run_place_limit (o.set_quantity o.quantity) s
           else { book := b, order := o, store := s, res := .ok () })) ∧
      (o.order_direction = .Ask → o.tick_id < b.next_bid_tick →
        b.handle_order o s =
          (match (b.run_market_ask o o.tick_id o.quantity s).res with
           | .error e =>
             { book := (b.run_market_ask o o.tick_id o.quantity s).book, order := o,
               store := (b.run_market_ask o o.tick_id o.quantity s).store, res := .error e }
           | .ok remaining =>
             if 0 < remaining then
               (b.run_market_ask o o.tick_id o.quantity s).book.run_place_limit
                 (o.set_quantity remaining) (b.run_market_ask o o.tick_id o.quantity s).store
             else
               { book := (b.run_market_ask o o.tick_id o.quantity s).book, order := o,
                 store := (b.run_market_ask o o.tick_id o.quantity s).store, res := .ok () })) ∧
      (o.order_direction = .Ask → b.next_bid_tick ≤ o.tick_id →
        b.handle_order o s =
          (if 0 < o.quantity then b.run_place_limit (o.set_quantity o.quantity) s
           else { book := b, order := o, store := s, res := .ok () })) := by
  refine ⟨?_, ?_, ?_, ?_⟩
  · intro hdir hcross
    simp only [Orderbook.handle_order, ht, Orderbook.run_partial_or_full_limit, hdir,
      if_pos hcross]
  · intro hdir hbound
    simp only [Orderbook.handle_order, ht, Orderbook.run_partial_or_full_limit, hdir,
      if_neg (by omega : ¬ b.next_ask_tick < o.tick_id)]
  · intro hdir hcross
    simp only [Orderbook.handle_order, ht, Orderbook.run_partial_or_full_limit, hdir,
      if_pos hcross]
  · intro hdir hbound
    simp only [Orderbook.handle_order, ht, Orderbook.run_partial_or_full_limit, hdir,
      if_neg (by omega : ¬ o.tick_id < b.next_bid_tick)]

/-- Witness for the amended crossing-limit theorem: the equal-priced limit bid
goes straight to placement. -/
theorem crossing_limit_sweeps_then_rests_witness :
    oneAskBook.handle_order equalPriceLimitBid bidderStore =
      (if 0 < equalPriceLimitBid.quantity then
        oneAskBook.run_place_limit
          (equalPriceLimitBid.set_quantity equalPriceLimitBid.quantity) bidderStore
       else { book := oneAskBook, order := equalPriceLimitBid, store := bidderStore,
              res := .ok () }) :=
  (crossing_limit_sweeps_then_rests oneAskBook equalPriceLimitBid bidderStore rfl).2.1 rfl
    (by decide)

/-- Auxiliary: erasing a key yields a sublist of the index. -/
theorem erase_sublist (m : TickMap) (k : Nat) : List.Sublist (m.erase k) m := by
  induction m with
  | nil => exact List.Sublist.refl _
  | cons p rest ih =>
    obtain ⟨k1, t1⟩ := p
    by_cases hk : k = k1
    · simp only [TickMap.erase, if_pos hk]
      exact List.sublist_cons_self _ _
    · simp only [TickMap.erase, if_neg hk]
      exact List.Sublist.cons₂ _ ih

/-- Auxiliary: the deferred-removal pass yields a sublist of the index. -/
theorem removeKeys_sublist (ks : List Nat) (m : TickMap) :
    List.Sublist (removeKeys m ks) m := by
  induction ks generalizing m with
  | nil => exact List.Sublist.refl _
  | cons j rest ih =>
    exact List.Sublist.trans (ih (m.erase j)) (erase_sublist m j)

/-- Auxiliary: sorted keys are in particular distinct. -/
theorem sorted_keys_nodup (m : TickMap) (h : SortedTickKeys m) : m.keys.Nodup :=
  h.imp Nat.ne_of_lt

/-- Auxiliary: an entry's key is a key of the index. -/
theorem mem_keys_of_mem (m : TickMap) (p : Nat × Tick) (hp : p ∈ m) : p.1 ∈ m.keys :=
  List.mem_map_of_mem Prod.fst hp

/-- Auxiliary: with distinct keys, the entries surviving an erase are the
original entries at other keys. -/
theorem mem_erase_of_nodup (m : TickMap) (j : Nat) (h : m.keys.Nodup) :
    ∀ p ∈ m.erase j, p ∈ m ∧ p.1 ≠ j := by
  induction m with
  | nil => intro p hp; cases hp
  | cons q rest ih =>
    obtain ⟨k1, t1⟩ := q
    have hk1 : k1 ∉ TickMap.keys rest := by
      intro hmem
      exact (List.nodup_cons.mp h).1 hmem
    have hrest : (TickMap.keys rest).Nodup := (List.nodup_cons.mp h).2
    intro p hp
    by_cases hj : j = k1
    · subst hj
      rw [show TickMap.erase ((j, t1) :: rest) j = rest by simp [TickMap.erase]] at hp
      refine ⟨List.mem_cons_of_mem _ hp, fun hpj => ?_⟩
      exact hk1 (hpj ▸ mem_keys_of_mem rest p hp)
    · rw [show TickMap.erase ((k1, t1) :: rest) j = (k1, t1) :: TickMap.erase rest j by
        simp [TickMap.erase, hj]] at hp
      rcases List.mem_cons.mp hp with hp1 | hp2
      · subst hp1
        exact ⟨List.mem_cons_self _ _, fun hc => hj hc.symm⟩
      · obtain ⟨h1, h2⟩ := ih hrest p hp2
        exact ⟨List.mem_cons_of_mem _ h1, h2⟩

/-- Auxiliary: with distinct keys, the entries surviving the removal pass are
the original entries at unremoved keys. -/
theorem mem_removeKeys_of_nodup (ks : List Nat) (m : TickMap) (h : m.keys.Nodup) :
    ∀ p ∈ removeKeys m ks, p ∈ m ∧ p.1 ∉ ks := by
  induction ks generalizing m with
  | nil => intro p hp; exact ⟨hp, by simp⟩
  | cons j rest ih =>
    intro p hp
    have herase : (TickMap.keys (m.erase j)).Nodup :=
      List.Nodup.sublist ((erase_sublist m j).map Prod.fst) h
    obtain ⟨h1, h2⟩ := ih (m.erase j) herase p hp
    obtain ⟨h3, h4⟩ := mem_erase_of_nodup m j h p h1
    refine ⟨h3, fun hc => ?_⟩
    rcases List.mem_cons.mp hc with hc1 | hc2
    · exact h4 hc1
    · exact h2 hc2

/-- Auxiliary: keys after a sorted insert come from the inserted key or the
original index. -/
theorem mem_keys_insert (m : TickMap) (k : Nat) (t : Tick) :
    ∀ j ∈ (m.insert k t).keys, j = k ∨ j ∈ m.keys := by
  induction m with
  | nil => intro j hj; simp [TickMap.insert, TickMap.keys] at hj; exact Or.inl hj
  | cons p rest ih =>
    obtain ⟨k1, t1⟩ := p
    intro j hj
    by_cases h1 : k < k1
    · simp only [TickMap.insert, if_pos h1, TickMap.keys, List.map_cons, List.mem_cons] at hj
      rcases hj with hj | hj | hj
      · exact Or.inl hj
      · exact Or.inr (by simp [TickMap.keys, hj])
      · exact Or.inr (List.mem_cons_of_mem _ hj)
    · by_cases h2 : k = k1
      · simp only [TickMap.insert, if_neg h1, if_pos h2, TickMap.keys, List.map_cons,
          List.mem_cons] at hj
        rcases hj with hj | hj
        · exact Or.inl hj
        · exact Or.inr (List.mem_cons_of_mem _ hj)
      · simp only [TickMap.insert, if_neg h1, if_neg h2, TickMap.keys, List.map_cons,
          List.mem_cons] at hj
        rcases hj with hj | hj
        · exact Or.inr (by simp [TickMap.keys, hj])
        · rcases ih j hj with hj1 | hj2
          · exact Or.inl hj1
          · exact Or.inr (List.mem_cons_of_mem _ hj2)

/-- Auxiliary: sorted insertion preserves strictly ascending keys. -/
theorem insert_sorted (m : TickMap) (k : Nat) (t : Tick) (h : SortedTickKeys m) :
    SortedTickKeys (m.insert k t) := by
  induction m with
  | nil => simp [TickMap.insert, SortedTickKeys, TickMap.keys]
  | cons p rest ih =>
    obtain ⟨k1, t1⟩ := p
    have hpair := (List.pairwise_cons.mp h)
    have hk1lt : ∀ j ∈ TickMap.keys rest, k1 < j := hpair.1
    have hrest : SortedTickKeys rest := hpair.2
    by_cases h1 : k < k1
    · simp only [TickMap.insert, if_pos h1]
      refine List.pairwise_cons.mpr ⟨?_, h⟩
      intro j hj
      rcases List.mem_cons.mp hj with hj1 | hj2
      · omega
      · have := hk1lt j hj2
        omega
    · by_cases h2 : k = k1
      · subst h2
        simp only [TickMap.insert, if_neg h1, if_pos rfl]
        exact List.pairwise_cons.mpr ⟨hk1lt, hrest⟩
      · simp only [TickMap.insert, if_neg h1, if_neg h2]
        refine List.pairwise_cons.mpr ⟨?_, ih hrest⟩
        intro j hj
        rcases mem_keys_insert rest k t j hj with hj1 | hj2
        · omega
        · exact hk1lt j hj2

/-- Auxiliary: with sorted keys, the entries after an insert are the new
binding plus the original bindings at other keys. -/
theorem mem_insert_sorted (m : TickMap) (k : Nat) (t : Tick) (h : SortedTickKeys m) :
    ∀ p ∈ m.insert k t, p = (k, t) ∨ (p ∈ m ∧ p.1 ≠ k) := by
  induction m with
  | nil => intro p hp; simp [TickMap.insert] at hp; exact Or.inl hp
  | cons q rest ih =>
    obtain ⟨k1, t1⟩ := q
    have hpair := (List.pairwise_cons.mp h)
    have hk1lt : ∀ j ∈ TickMap.keys rest, k1 < j := hpair.1
    have hrest : SortedTickKeys rest := hpair.2
    intro p hp
    by_cases h1 : k < k1
    · simp only [TickMap.insert, if_pos h1] at hp
      rcases List.mem_cons.mp hp with hp1 | hp2
      · exact Or.inl hp1
      · refine Or.inr ⟨hp2, fun hc => ?_⟩
        rcases List.mem_cons.mp hp2 with hq1 | hq2
        · rw [hq1] at hc
          simp at hc
          omega
        · have := hk1lt p.1 (mem_keys_of_mem rest p hq2)
          omega
    · by_cases h2 : k = k1
      · subst h2
        simp only [TickMap.insert, if_neg h1, if_pos rfl] at hp
        rcases List.mem_cons.mp hp with hp1 | hp2
        · exact Or.inl hp1
        · refine Or.inr ⟨List.mem_cons_of_mem _ hp2, fun hc => ?_⟩
          have := hk1lt p.1 (mem_keys_of_mem rest p hp2)
          omega
      · simp only [TickMap.insert, if_neg h1, if_neg h2] at hp
        rcases List.mem_cons.mp hp with hp1 | hp2
        · refine Or.inr ⟨by rw [hp1]; exact List.mem_cons_self _ _, fun hc => ?_⟩
          rw [hp1] at hc
          simp at hc
          exact h2 hc.symm
        · rcases ih hrest p hp2 with hq1 | hq2
          · exact Or.inl hq1
          · exact Or.inr ⟨List.mem_cons_of_mem _ hq2.1, hq2.2⟩

/-- Auxiliary: looking up the freshly inserted key returns the new tick. -/
theorem find_insert_self (m : TickMap) (k : Nat) (t : Tick) :
    (m.insert k t).find k = some t := by
  induction m with
  | nil => simp [TickMap.insert, TickMap.find]
  | cons p rest ih =>
    obtain ⟨k1, t1⟩ := p
    by_cases h1 : k < k1
    · simp [TickMap.insert, if_pos h1, TickMap.find]
    · by_cases h2 : k = k1
      · simp [TickMap.insert, if_neg h1, if_pos h2, TickMap.find]
      · simp [TickMap.insert, if_neg h1, if_neg h2, TickMap.find, h2, ih]

/-- Auxiliary: a successful `place_limit` appends the order at the tail. -/
theorem place_limit_ok_orders (t : Tick) (o : Order) (t1 : Tick)
    (h : t.place_limit o = .ok t1) : t1.orders = t.orders ++ [o] := by
  unfold Tick.place_limit at h
  split at h
  · exact absurd h (by simp)
  · cases h
    rfl

/-- Auxiliary: when the bid-sweep loop completes without error, every entry of
the returned segment is either an untouched entry of the input iterator, an
emptied entry queued for removal, or an entry that still holds resting
orders. -/
theorem marketBidLoop_mem (order : Order) (end_tick : Nat) :
    ∀ (iter : TickMap) (remaining next_ask : Nat) (s : AccountStore),
      (marketBidLoop order end_tick iter remaining next_ask s).err = none →
        ∀ p ∈ (marketBidLoop order end_tick iter remaining next_ask s).out,
          p ∈ iter ∨ p.1 ∈ (marketBidLoop order end_tick iter remaining next_ask s).toRemove ∨
            Tick.orders p.2 ≠ [] := by
  intro iter
  induction iter with
  | nil =>
    intro remaining na s hnone p hp
    exact absurd hp (by simp [marketBidLoop])
  | cons q rest ih =>
    obtain ⟨tid, t⟩ := q
    intro remaining na s hnone p hp
    by_cases h0 : remaining = 0 ∨ na = UMAX
    · simp only [marketBidLoop, if_pos h0] at hp
      exact Or.inl hp
    · by_cases h1 : end_tick ≤ tid
      · simp only [marketBidLoop, if_neg h0, if_pos h1] at hp
        exact Or.inl hp
      · simp only [marketBidLoop, if_neg h0, if_neg h1] at hnone hp ⊢
        revert hnone hp
        split
        · intro hnone hp
          simp at hnone
        · intro hnone hp
          simp only at hnone hp ⊢
          revert hp
          split
          next hc =>
            intro hp
            simp only [List.cons_append, List.nil_append] at hp ⊢
            rcases List.mem_cons.mp hp with hp1 | hp2
            · subst hp1
              exact Or.inr (Or.inl (List.mem_cons_self _ _))
            · rcases ih _ _ _ hnone p hp2 with h | h | h
              · exact Or.inl (List.mem_cons_of_mem _ h)
              · exact Or.inr (Or.inl (List.mem_cons_of_mem _ h))
              · exact Or.inr (Or.inr h)
          next hc =>
            intro hp
            simp only [List.nil_append] at hp ⊢
            rcases List.mem_cons.mp hp with hp1 | hp2
            · subst hp1
              exact Or.inr (Or.inr hc)
            · rcases ih _ _ _ hnone p hp2 with h | h | h
              · exact Or.inl (List.mem_cons_of_mem _ h)
              · exact Or.inr (Or.inl h)
              · exact Or.inr (Or.inr h)

/-- Auxiliary: the ask-sweep analogue of the previous lemma. -/
theorem marketAskLoop_mem (order : Order) (end_tick : Nat) :
    ∀ (iter : TickMap) (remaining next_bid : Nat) (s : AccountStore),
      (marketAskLoop order end_tick iter remaining next_bid s).err = none →
        ∀ p ∈ (marketAskLoop order end_tick iter remaining next_bid s).out,
          p ∈ iter ∨ p.1 ∈ (marketAskLoop order end_tick iter remaining next_bid s).toRemove ∨
            Tick.orders p.2 ≠ [] := by
  intro iter
  induction iter with
  | nil =>
    intro remaining nb s hnone p hp
    exact absurd hp (by simp [marketAskLoop])
  | cons q rest ih =>
    obtain ⟨tid, t⟩ := q
    intro remaining nb s hnone p hp
    by_cases h0 : remaining = 0 ∨ nb = 0
    · simp only [marketAskLoop, if_pos h0] at hp
      exact Or.inl hp
    · by_cases h1 : tid ≤ end_tick
      · simp only [marketAskLoop, if_neg h0, if_pos h1] at hp
        exact Or.inl hp
      · simp only [marketAskLoop, if_neg h0, if_neg h1] at hnone hp ⊢
        revert hnone hp
        split
        · intro hnone hp
          simp at hnone
        · intro hnone hp
          simp only at hnone hp ⊢
          revert hp
          split
          next hc =>
            intro hp
            simp only [List.cons_append, List.nil_append] at hp ⊢
            rcases List.mem_cons.mp hp with hp1 | hp2
            · subst hp1
              exact Or.inr (Or.inl (List.mem_cons_self _ _))
            · rcases ih _ _ _ hnone p hp2 with h | h | h
              · exact Or.inl (List.mem_cons_of_mem _ h)
              · exact Or.inr (Or.inl (List.mem_cons_of_mem _ h))
              · exact Or.inr (Or.inr h)
          next hc =>
            intro hp
            simp only [List.nil_append] at hp ⊢
            rcases List.mem_cons.mp hp with hp1 | hp2
            · subst hp1
              exact Or.inr (Or.inr hc)
            · rcases ih _ _ _ hnone p hp2 with h | h | h
              · exact Or.inl (List.mem_cons_of_mem _ h)
              · exact Or.inr (Or.inl h)
              · exact Or.inr (Or.inr h)

/-- Auxiliary: inserting a tick with a non-empty queue into a sorted index
whose other entries are non-empty preserves both invariant halves. -/
theorem inserted_nonempty_inv (m1 : TickMap) (k : Nat) (t1 : Tick)
    (hs : SortedTickKeys m1) (hne : Tick.orders t1 ≠ [])
    (hall : ∀ p ∈ m1, p.1 ≠ k → Tick.orders p.2 ≠ []) :
    SortedTickKeys (m1.insert k t1) ∧ NonemptyQueues (m1.insert k t1) := by
  refine ⟨insert_sorted m1 k t1 hs, ?_⟩
  intro p hp
  rcases mem_insert_sorted m1 k t1 hs p hp with h1 | ⟨h2, h3⟩
  · rw [h1]
    exact hne
  · exact hall p h2 h3

/-- Auxiliary: a successful bid sweep preserves the book invariant — the
deferred-removal pass deletes exactly the emptied levels. -/
theorem run_market_bid_ok_inv (b : Orderbook) (o : Order) (end_tick quantity : Nat)
    (s : AccountStore) (n : Nat) (hinv : BookInv b)
    (h : (b.run_market_bid o end_tick quantity s).res = .ok n) :
    BookInv (b.run_market_bid o end_tick quantity s).book := by
  obtain ⟨hsorted, hnonempty⟩ := hinv
  simp only [Orderbook.run_market_bid] at h ⊢
  split at h
  · simp at h
  next heq =>
    have hkeys : TickMap.keys
        ((b.ticks.takeWhile fun p => p.1 < b.next_ask_tick) ++
          (marketBidLoop o end_tick (b.ticks.dropWhile fun p => p.1 < b.next_ask_tick)
            quantity b.next_ask_tick s).out) = b.ticks.keys := by
      rw [keys_append, marketBidLoop_keys,
        ← keys_append (b.ticks.takeWhile fun p => p.1 < b.next_ask_tick),
        List.takeWhile_append_dropWhile]
    have hs2 : SortedTickKeys
        ((b.ticks.takeWhile fun p => p.1 < b.next_ask_tick) ++
          (marketBidLoop o end_tick (b.ticks.dropWhile fun p => p.1 < b.next_ask_tick)
            quantity b.next_ask_tick s).out) := by
      unfold SortedTickKeys
      rw [hkeys]
      exact hsorted
    refine ⟨?_, ?_⟩
    · exact List.Pairwise.sublist ((removeKeys_sublist _ _).map Prod.fst) hs2
    · intro p hp
      obtain ⟨hmem, hnotrem⟩ :=
        mem_removeKeys_of_nodup _ _ (sorted_keys_nodup _ hs2) p hp
      rcases List.mem_append.mp hmem with hpre | hout
      · exact hnonempty p ((List.takeWhile_sublist _).mem hpre)
      · rcases marketBidLoop_mem o end_tick _ quantity b.next_ask_tick s heq p hout
          with h1 | h1 | h1
        · exact hnonempty p ((List.dropWhile_sublist _).mem h1)
        · exact absurd h1 hnotrem
        · exact h1

/-- Auxiliary: a successful ask sweep preserves the book invariant. -/
theorem run_market_ask_ok_inv (b : Orderbook) (o : Order) (end_tick quantity : Nat)
    (s : AccountStore) (n : Nat) (hinv : BookInv b)
    (h : (b.run_market_ask o end_tick quantity s).res = .ok n) :
    BookInv (b.run_market_ask o end_tick quantity s).book := by
  obtain ⟨hsorted, hnonempty⟩ := hinv
  simp only [Orderbook.run_market_ask] at h ⊢
  split at h
  · simp at h
  next heq =>
    have hkeys : TickMap.keys
        ((marketAskLoop o end_tick (b.ticks.takeWhile fun p => p.1 ≤ b.next_bid_tick).reverse
            quantity b.next_bid_tick s).out.reverse ++
          (b.ticks.dropWhile fun p => p.1 ≤ b.next_bid_tick)) = b.ticks.keys := by
      rw [keys_append, keys_reverse, marketAskLoop_keys, keys_reverse, List.reverse_reverse,
        ← keys_append (b.ticks.takeWhile fun p => p.1 ≤ b.next_bid_tick),
        List.takeWhile_append_dropWhile]
    have hs2 : SortedTickKeys
        ((marketAskLoop o end_tick (b.ticks.takeWhile fun p => p.1 ≤ b.next_bid_tick).reverse
            quantity b.next_bid_tick s).out.reverse ++
          (b.ticks.dropWhile fun p => p.1 ≤ b.next_bid_tick)) := by
      unfold SortedTickKeys
      rw [hkeys]
      exact hsorted
    refine ⟨?_, ?_⟩
    · exact List.Pairwise.sublist ((removeKeys_sublist _ _).map Prod.fst) hs2
    · intro p hp
      obtain ⟨hmem, hnotrem⟩ :=
        mem_removeKeys_of_nodup _ _ (sorted_keys_nodup _ hs2) p hp
      rcases List.mem_append.mp hmem with hout | hpost
      · rcases marketAskLoop_mem o end_tick _ quantity b.next_bid_tick s heq p
            (List.mem_reverse.mp hout) with h1 | h1 | h1
        · exact hnonempty p ((List.takeWhile_sublist _).mem (List.mem_reverse.mp h1))
        · exact absurd h1 hnotrem
        · exact h1
      · exact hnonempty p ((List.dropWhile_sublist _).mem hpost)

/-- Auxiliary: a successful limit placement preserves the book invariant: the
(lazily created) target tick ends with the placed order appended, hence
non-empty, and all other entries are untouched. -/
theorem run_place_limit_ok_inv (b : Orderbook) (o : Order) (s : AccountStore)
    (hinv : BookInv b) (h : (b.run_place_limit o s).res = .ok ()) :
    BookInv (b.run_place_limit o s).book := by
  simp only [Orderbook.run_place_limit] at h ⊢
  split at h
  · simp at h
  next s1 heq1 =>
    split at h
    · simp at h
    next t1 heq2 =>
      have hts : SortedTickKeys
          (if b.ticks.contains o.tick_id then b.ticks
           else b.ticks.insert o.tick_id (Tick.new o.tick_id)) := by
        split
        · exact hinv.1
        · exact insert_sorted _ _ _ hinv.1
      have htm : ∀ p ∈ (if b.ticks.contains o.tick_id then b.ticks
            else b.ticks.insert o.tick_id (Tick.new o.tick_id)),
          p.1 ≠ o.tick_id → Tick.orders p.2 ≠ [] := by
        split
        · intro p hp _
          exact hinv.2 p hp
        · intro p hp hne
          rcases mem_insert_sorted _ _ _ hinv.1 p hp with h1 | ⟨h2, _⟩
          · rw [h1] at hne
            simp at hne
          · exact hinv.2 p h2
      have ht1 : Tick.orders t1 ≠ [] := by
        rw [place_limit_ok_orders _ _ _ heq2]
        simp
      have hmain := inserted_nonempty_inv _ o.tick_id t1 hts ht1 htm
      split
      · split
        · exact hmain
        · exact hmain
      · split
        · exact hmain
        · exact hmain

/-- C3 counterexample: a `handle_order` call that returns an error can leave a
Tick whose queue became empty during the fill present in the price index, so
the entry/non-empty-queue equivalence does not hold after every completed
operation ("whether it returns Ok or an error"). -/
theorem error_return_breaks_index_invariant :
    ((oneAskBook.handle_order pennilessBid emptyStore).res = .error "Insufficient funds") ∧
      (((oneAskBook.handle_order pennilessBid emptyStore).book.ticks.find 10).map
          Tick.orders = some []) ∧
      ¬ ((oneAskBook.handle_order pennilessBid emptyStore).book.ticks.find 10 = none) :=
  ⟨rfl, rfl, by decide⟩

/-- C3 (amended): after `Orderbook::new` and after every `handle_order` call
that returns Ok, the price index is sorted and contains an entry exactly for
the ticks holding at least one resting order (every entry's queue is
non-empty, and emptied levels have been pruned); `handle_order` calls that
return an error can instead leave emptied, unpruned ticks in the index. -/
theorem index_entry_iff_nonempty_queue :
    (∀ book_id, BookInv (Orderbook.new book_id)) ∧
      (∀ (b : Orderbook) (o : Order) (s : AccountStore), BookInv b →
        (b.handle_order o s).res = .ok () → BookInv (b.handle_order o s).book) := by
  constructor
  · intro book_id
    exact ⟨List.Pairwise.nil, fun p hp => absurd hp (by simp [Orderbook.new])⟩
  · intro b o s hinv h
    obtain ⟨oid, otick, obid, oown, oty, odir, oq⟩ := o
    unfold Orderbook.handle_order at h ⊢
    rcases oty with _ | _ <;> dsimp only at h ⊢
    · -- Market path
      unfold Orderbook.run_market_order at h ⊢
      rcases odir with _ | _ <;> dsimp only at h ⊢
      · split at h
        · simp at h
        next n heq =>
          exact run_market_bid_ok_inv b _ UMAX oq s n hinv heq
      · split at h
        · simp at h
        next n heq =>
          exact run_market_ask_ok_inv b _ 0 oq s n hinv heq
    · -- Limit path
      unfold Orderbook.run_partial_or_full_limit at h ⊢
      rcases odir with _ | _ <;> dsimp only at h ⊢
      · by_cases hcross : b.next_ask_tick < otick
        · rw [if_pos hcross] at h ⊢
          split at h
          · simp at h
          next n heq =>
            have hb1 := run_market_bid_ok_inv b _ otick oq s n hinv heq
            split at h
            next hn =>
              rw [if_pos hn]
              exact run_place_limit_ok_inv _ _ _ hb1 h
            next hn =>
              rw [if_neg hn]
              exact hb1
        · rw [if_neg hcross] at h ⊢
          split at h
          next hn =>
            rw [if_pos hn]
            exact run_place_limit_ok_inv _ _ _ hinv h
          next hn =>
            rw [if_neg hn]
            exact hinv
      · by_cases hcross : otick < b.next_bid_tick
        · rw [if_pos hcross] at h ⊢
          split at h
          · simp at h
          next n heq =>
            have hb1 := run_market_ask_ok_inv b _ otick oq s n hinv heq
            split at h
            next hn =>
              rw [if_pos hn]
              exact run_place_limit_ok_inv _ _ _ hb1 h
            next hn =>
              rw [if_neg hn]
              exact hb1
        · rw [if_neg hcross] at h ⊢
          split at h
          next hn =>
            rw [if_pos hn]
            exact run_place_limit_ok_inv _ _ _ hinv h
          next hn =>
            rw [if_neg hn]
            exact hinv

/-- Witness for the amended index invariant: placing a funded limit bid on a
fresh book yields a book satisfying the invariant. -/
theorem index_entry_iff_nonempty_queue_witness :
    BookInv ((Orderbook.new 0).handle_order freshLimitBid bidderStore).book :=
  index_entry_iff_nonempty_queue.2 (Orderbook.new 0) freshLimitBid bidderStore
    (by decide) rfl

/-- Witness for the ledger conservation theorem at a concrete command
sequence: deposit 10 then withdraw 4. -/
theorem ledger_conservation_witness :
    (runLedgerOps (Account.new 0 .Individual) [.dep .USD 10, .wd .USD 4]).balance .USD
        + successfulWithdrawSum .USD (Account.new 0 .Individual) [.dep .USD 10, .wd .USD 4]
      = (Account.new 0 .Individual).balance .USD + depositSum .USD [.dep .USD 10, .wd .USD 4] :=
  ledger_conservation.2.2.2.2 (Account.new 0 .Individual) [.dep .USD 10, .wd .USD 4] .USD
